import Mathlib

/-!
Shallow embedding of the typed-store layer (src/typed-store/src/rocks/mod.rs):
a typed, ordered key-value map (`DBMap`) over a column-family-oriented byte
store, with atomic multi-map write batches (`DBBatch`) and forward cursors.

The underlying engine (rocksdb) is external to the repository and is modelled
as an idealized ordered byte store: a set of registered column families plus
an association list from (column family, key bytes) to value bytes, where a
fresh put shadows older entries and lookups return the most recent entry.

Machine bytes are modelled as `Nat`s (each in 0..255 where it matters) and
byte strings as `List Nat` compared lexicographically, which is rocksdb's
default bytewise comparator.
-/

namespace TypedStore

/-- A byte string: the raw keys and values the engine stores. -/
abbrev Bytes := List Nat

/-- Strict byte-lexicographic order on byte strings: the order in which the
engine's default bytewise comparator arranges keys. -/
def lexLt : Bytes → Bytes → Bool
  | _, [] => false
  | [], _ :: _ => true
  | a :: as, b :: bs => if a < b then true else if b < a then false else lexLt as bs

/-- Non-strict byte-lexicographic order, as the negation of strict order in
the other direction. -/
def lexLe (a b : Bytes) : Bool := !(lexLt b a)

/-- Big-endian fixed-width encoding of an unsigned integer into `w` bytes.
Models the key codec the source configures on every operation:
bincode DefaultOptions with big-endian and fixint encoding, which writes an
unsigned `w`-byte integer as exactly `w` bytes, most significant first. -/
def encBE : Nat → Nat → Bytes
  | 0, _ => []
  | w + 1, n => (n / 256 ^ w) :: encBE w (n % 256 ^ w)

/-- Big-endian fixed-width encoding of a signed integer into `w` bytes.
Models the same bincode configuration on signed integer keys, which writes
the two's-complement representation, most significant byte first. -/
def encSignedBE (w : Nat) (i : Int) : Bytes :=
  encBE w ((i % ((256 : Int) ^ w)).toNat)

/-- Modelled from the spec: the error enumeration of errors.rs, which is not
under src/. Per spec section 7 the kinds are an unregistered column family,
a cross-instance batch, encoding/decoding failures (bincode), and errors
surfaced verbatim from the engine. -/
inductive TypedStoreError where
  | UnregisteredColumn (cf : String)
  | CrossDBBatch
  | SerializationError (msg : String)
  | RocksDBError (msg : String)
deriving DecidableEq, Repr

/-- A serializer/deserializer pair for one type: the role the
Serialize/DeserializeOwned trait bounds play in the source. Key types use the
big-endian fixint bincode configuration; value types use bincode defaults. -/
structure Serde (α : Type) where
  ser : α → Except TypedStoreError Bytes
  deser : Bytes → Except TypedStoreError α

/-- Outcome of an operation that, besides succeeding or returning an error,
may panic (the source's `expect` on a missing column family handle). -/
inductive PResult (α : Type) where
  | ok (a : α)
  | err (e : TypedStoreError)
  | panicked (msg : String)
deriving DecidableEq, Repr

/-- Whether an outcome is a panic. -/
def PResult.isPanicked : PResult α → Bool
  | .panicked _ => true
  | _ => false

/-- The idealized engine instance state: the registered column families and
the stored entries, newest first; a lookup returns the newest entry. -/
structure RocksDB where
  cfs : List String
  data : List ((String × Bytes) × Bytes)
deriving DecidableEq, Repr

/-- First entry (newest) for a (column family, key) pair. -/
def assocFind (k : String × Bytes) : List ((String × Bytes) × Bytes) → Option Bytes
  | [] => none
  | e :: rest => if e.1 = k then some e.2 else assocFind k rest

/-- Remove every entry for a (column family, key) pair. -/
def removeKey (k : String × Bytes) : List ((String × Bytes) × Bytes) → List ((String × Bytes) × Bytes)
  | [] => []
  | e :: rest => if e.1 = k then removeKey k rest else e :: removeKey k rest

/-- Whether an entry key falls inside a range delete on one column family:
same column family and `lo <= key < hi` bytewise. -/
def inRange (cf : String) (lo hi : Bytes) (ck : String × Bytes) : Bool :=
  ck.1 = cf && lexLe lo ck.2 && lexLt ck.2 hi

/-- Remove every entry inside a range delete. -/
def removeRange (cf : String) (lo hi : Bytes) : List ((String × Bytes) × Bytes) → List ((String × Bytes) × Bytes)
  | [] => []
  | e :: rest => if inRange cf lo hi e.1 then removeRange cf lo hi rest else e :: removeRange cf lo hi rest

/-- Remove every entry of one column family (what dropping the family does). -/
def removeCfEntries (cf : String) : List ((String × Bytes) × Bytes) → List ((String × Bytes) × Bytes)
  | [] => []
  | e :: rest => if e.1.1 = cf then removeCfEntries cf rest else e :: removeCfEntries cf rest

/-- Engine point lookup by raw key bytes (get_pinned_cf / multi_get_cf). -/
def RocksDB.rawGet (s : RocksDB) (cf : String) (k : Bytes) : Option Bytes :=
  assocFind (cf, k) s.data

/-- Engine point write by raw bytes (put_cf): the new entry shadows any
older entry for the same key. -/
def RocksDB.rawPut (s : RocksDB) (cf : String) (k v : Bytes) : RocksDB :=
  { s with data := ((cf, k), v) :: s.data }

/-- Engine point delete by raw bytes (delete_cf); absent keys are fine. -/
def RocksDB.rawDelete (s : RocksDB) (cf : String) (k : Bytes) : RocksDB :=
  { s with data := removeKey (cf, k) s.data }

/-- Engine range delete (delete_range_cf): removes keys in `[lo, hi)`. -/
def RocksDB.rawDeleteRange (s : RocksDB) (cf : String) (lo hi : Bytes) : RocksDB :=
  { s with data := removeRange cf lo hi s.data }

/-- Engine drop of a column family (drop_cf): fails when the family does not
exist, otherwise unregisters it and discards its entries. -/
def RocksDB.dropCf (s : RocksDB) (cf : String) : Except TypedStoreError RocksDB :=
  if cf ∈ s.cfs then
    .ok ⟨s.cfs.filter (fun c => c ≠ cf), removeCfEntries cf s.data⟩
  else
    .error (.RocksDBError "Invalid argument: Column family not found")

/-- Engine creation of a column family (create_cf): fails when the family
already exists, otherwise registers it empty. -/
def RocksDB.createCf (s : RocksDB) (cf : String) : Except TypedStoreError RocksDB :=
  if cf ∈ s.cfs then
    .error (.RocksDBError "Invalid argument: Column family already exists")
  else
    .ok ⟨cf :: s.cfs, s.data⟩

/-- The typed map handle: the engine-instance identity (modelling which Arc
the handle clones, so Arc::ptr_eq becomes identity of this field), the
column family name, and phantom key/value types. -/
structure DBMap (K V : Type) where
  instanceId : Nat
  cf : String
deriving DecidableEq, Repr

/-- DBMap::cf in the source: resolves the column family handle and panics
via expect when it is missing ("Map-keying column family should have been
checked at DB creation"). -/
def DBMap.cfHandle (db : DBMap K V) (s : RocksDB) : PResult String :=
  if db.cf ∈ s.cfs then .ok db.cf
  else .panicked "Map-keying column family should have been checked at DB creation"

/-- DBMap::reopen: attach a typed view to an already-open engine instance;
fails with UnregisteredColumn when the name was not registered at open. -/
def DBMap.reopen (K V : Type) (dbId : Nat) (s : RocksDB) (optCf : Option String) :
    Except TypedStoreError (DBMap K V) :=
  let cfKey := optCf.getD "default"
  if cfKey ∈ s.cfs then .ok ⟨dbId, cfKey⟩
  else .error (.UnregisteredColumn cfKey)

/-- One staged raw operation of a write batch, tagged with its target column
family. -/
inductive BatchOp where
  | put (cf : String) (k v : Bytes)
  | del (cf : String) (k : Bytes)
  | delRange (cf : String) (lo hi : Bytes)
deriving DecidableEq, Repr

/-- The write batch: the engine-instance identity it was created from and the
ordered staged operations. -/
structure DBBatch where
  instanceId : Nat
  ops : List BatchOp
deriving DecidableEq, Repr

/-- DBMap::batch: a fresh batch bound to this map's engine instance. -/
def DBMap.batch (db : DBMap K V) : DBBatch :=
  ⟨db.instanceId, []⟩

/-- DBBatch::new against an engine instance directly. -/
def DBBatch.new (dbId : Nat) : DBBatch :=
  ⟨dbId, []⟩

/-- Applying one staged raw operation to the engine state. -/
def RocksDB.applyOp (s : RocksDB) : BatchOp → RocksDB
  | .put cf k v => s.rawPut cf k v
  | .del cf k => s.rawDelete cf k
  | .delRange cf lo hi => s.rawDeleteRange cf lo hi

/-- DBBatch::write: commits every staged operation, in order, as one engine
write; the batch is consumed. The idealized engine's write succeeds. -/
def DBBatch.write (b : DBBatch) (s : RocksDB) : Except TypedStoreError RocksDB :=
  .ok (b.ops.foldl RocksDB.applyOp s)

/-- Loop body of DBBatch::insert_batch: per pair, serialize the key with the
big-endian fixint configuration, serialize the value with bincode defaults,
resolve the target column family handle (which may panic), and append a put;
the first failure aborts the whole call. -/
def stagePuts (kS : Serde K) (vS : Serde V) (db : DBMap K V) (s : RocksDB) :
    List (K × V) → List BatchOp → PResult (List BatchOp)
  | [], acc => .ok acc
  | (k, v) :: rest, acc =>
    match kS.ser k with
    | .error e => .err e
    | .ok kb =>
      match vS.ser v with
      | .error e => .err e
      | .ok vb =>
        match db.cfHandle s with
        | .panicked m => .panicked m
        | .err e => .err e
        | .ok cf => stagePuts kS vS db s rest (acc ++ [BatchOp.put cf kb vb])

/-- DBBatch::insert_batch: rejects a map from a different engine instance
with CrossDBBatch before staging anything, then stages one put per pair. -/
def DBBatch.insert_batch (kS : Serde K) (vS : Serde V) (b : DBBatch) (db : DBMap K V)
    (new_vals : List (K × V)) (s : RocksDB) : PResult DBBatch :=
  if db.instanceId ≠ b.instanceId then .err .CrossDBBatch
  else
    match stagePuts kS vS db s new_vals b.ops with
    | .ok ops => .ok ⟨b.instanceId, ops⟩
    | .err e => .err e
    | .panicked m => .panicked m

/-- Loop body of DBBatch::delete_batch: per key, serialize it, resolve the
column family handle, and append a delete; the first failure aborts. -/
def stageDels (kS : Serde K) (db : DBMap K V) (s : RocksDB) :
    List K → List BatchOp → PResult (List BatchOp)
  | [], acc => .ok acc
  | k :: rest, acc =>
    match kS.ser k with
    | .error e => .err e
    | .ok kb =>
      match db.cfHandle s with
      | .panicked m => .panicked m
      | .err e => .err e
      | .ok cf => stageDels kS db s rest (acc ++ [BatchOp.del cf kb])

/-- DBBatch::delete_batch: rejects a map from a different engine instance
with CrossDBBatch before staging anything, then stages one delete per key. -/
def DBBatch.delete_batch (kS : Serde K) (b : DBBatch) (db : DBMap K V)
    (purged_vals : List K) (s : RocksDB) : PResult DBBatch :=
  if db.instanceId ≠ b.instanceId then .err .CrossDBBatch
  else
    match stageDels kS db s purged_vals b.ops with
    | .ok ops => .ok ⟨b.instanceId, ops⟩
    | .err e => .err e
    | .panicked m => .panicked m

/-- DBBatch::delete_range: rejects a map from a different engine instance
with CrossDBBatch, serializes both bounds, resolves the column family handle,
and stages one range delete covering the serialized lower bound (inclusive)
up to the serialized upper bound (exclusive). -/
def DBBatch.delete_range (kS : Serde K) (b : DBBatch) (db : DBMap K V)
    (lo hi : K) (s : RocksDB) : PResult DBBatch :=
  if db.instanceId ≠ b.instanceId then .err .CrossDBBatch
  else
    match kS.ser lo with
    | .error e => .err e
    | .ok from_buf =>
      match kS.ser hi with
      | .error e => .err e
      | .ok to_buf =>
        match db.cfHandle s with
        | .panicked m => .panicked m
        | .err e => .err e
        | .ok cf => .ok ⟨b.instanceId, b.ops ++ [BatchOp.delRange cf from_buf to_buf]⟩

/-- Map::get for DBMap: serialize the key, resolve the column family handle,
point-lookup, and decode the bytes when present; absence is ok-none. -/
def DBMap.get (kS : Serde K) (vS : Serde V) (db : DBMap K V) (s : RocksDB) (key : K) :
    PResult (Option V) :=
  match kS.ser key with
  | .error e => .err e
  | .ok key_buf =>
    match db.cfHandle s with
    | .panicked m => .panicked m
    | .err e => .err e
    | .ok cf =>
      match s.rawGet cf key_buf with
      | some data =>
        match vS.deser data with
        | .error e => .err e
        | .ok v => .ok (some v)
      | none => .ok none

/-- Map::contains_key for DBMap: defined through get. -/
def DBMap.contains_key (kS : Serde K) (vS : Serde V) (db : DBMap K V) (s : RocksDB) (key : K) :
    PResult Bool :=
  match DBMap.get kS vS db s key with
  | .ok v => .ok v.isSome
  | .err e => .err e
  | .panicked m => .panicked m

/-- Map::insert for DBMap: serialize key and value, resolve the column family
handle, point-write; returns the updated engine state. -/
def DBMap.insert (kS : Serde K) (vS : Serde V) (db : DBMap K V) (s : RocksDB) (key : K) (value : V) :
    PResult RocksDB :=
  match kS.ser key with
  | .error e => .err e
  | .ok key_buf =>
    match vS.ser value with
    | .error e => .err e
    | .ok value_buf =>
      match db.cfHandle s with
      | .panicked m => .panicked m
      | .err e => .err e
      | .ok cf => .ok (s.rawPut cf key_buf value_buf)

/-- Map::remove for DBMap: serialize the key, resolve the column family
handle, point-delete; deleting an absent key is not an error. -/
def DBMap.remove (kS : Serde K) (db : DBMap K V) (s : RocksDB) (key : K) : PResult RocksDB :=
  match kS.ser key with
  | .error e => .err e
  | .ok key_buf =>
    match db.cfHandle s with
    | .panicked m => .panicked m
    | .err e => .err e
    | .ok cf => .ok (s.rawDelete cf key_buf)

/-- Map::clear for DBMap: drop the column family by name, discarding any
error from the drop, then recreate it; only the recreate result is
propagated. Uses the name directly, so no handle resolution (and no panic). -/
def DBMap.clear (db : DBMap K V) (s : RocksDB) : PResult RocksDB :=
  let s₁ := match s.dropCf db.cf with
            | .ok s' => s'
            | .error _ => s
  match s₁.createCf db.cf with
  | .ok s₂ => .ok s₂
  | .error e => .err e

/-- Key-serialization loop of Map::multi_get: serialize every key with the
big-endian fixint configuration; the first failure aborts the call. -/
def serKeys (kS : Serde K) : List K → Except TypedStoreError (List Bytes)
  | [] => .ok []
  | k :: rest =>
    match kS.ser k with
    | .error e => .error e
    | .ok kb =>
      match serKeys kS rest with
      | .error e => .error e
      | .ok kbs => .ok (kb :: kbs)

/-- Decoding loop of Map::multi_get: each position is decoded independently,
absence staying none; the first decode failure aborts the call. -/
def decodeResults (vS : Serde V) : List (Option Bytes) → Except TypedStoreError (List (Option V))
  | [] => .ok []
  | some data :: rest =>
    match vS.deser data with
    | .error e => .error e
    | .ok v =>
      match decodeResults vS rest with
      | .error e => .error e
      | .ok vs => .ok (some v :: vs)
  | none :: rest =>
    match decodeResults vS rest with
    | .error e => .error e
    | .ok vs => .ok (none :: vs)

/-- Map::multi_get for DBMap: resolve the column family handle first, then
serialize every key, batch-lookup, and decode every result positionally. -/
def DBMap.multi_get (kS : Serde K) (vS : Serde V) (db : DBMap K V) (s : RocksDB)
    (keys : List K) : PResult (List (Option V)) :=
  match db.cfHandle s with
  | .panicked m => .panicked m
  | .err e => .err e
  | .ok cf =>
    match serKeys kS keys with
    | .error e => .err e
    | .ok keys_bytes =>
      let results := keys_bytes.map (s.rawGet cf)
      match decodeResults vS results with
      | .error e => .err e
      | .ok values_parsed => .ok values_parsed

/-- Non-strict byte-lexicographic order as a proposition, for sorting. -/
def byteLe (a b : Bytes) : Prop := lexLe a b = true

instance : DecidableRel byteLe := fun a b => inferInstanceAs (Decidable (lexLe a b = true))

/-- The entries of one column family as the engine's raw forward iterator
visits them after seek_to_first: the distinct stored keys in ascending
byte-lexicographic order, each with its current (newest) value. -/
def RocksDB.entriesOf (s : RocksDB) (cf : String) : List (Bytes × Bytes) :=
  (List.insertionSort byteLe
      ((s.data.filterMap (fun e => if e.1.1 = cf then some e.1.2 else none)).dedup)).filterMap
    (fun kb => (s.rawGet cf kb).map (fun vb => (kb, vb)))

/-- Modelled from the spec: the Iter cursor of iter.rs, which is not under
src/. Holds the remaining raw entries in ascending byte order; next() either
signals exhaustion or decodes the current key and value and advances. -/
structure Iter (K V : Type) where
  entries : List (Bytes × Bytes)
deriving DecidableEq, Repr

/-- Modelled from the spec: the Keys cursor of keys.rs, which is not under
src/. Walks the same byte order as Iter but decodes only keys. -/
structure Keys (K : Type) where
  entries : List (Bytes × Bytes)
deriving DecidableEq, Repr

/-- Modelled from the spec: the Values cursor of values.rs, which is not
under src/. Walks the same byte order as Iter but decodes only values. -/
structure Values (V : Type) where
  entries : List (Bytes × Bytes)
deriving DecidableEq, Repr

/-- Decoding one raw entry into a typed pair: key bytes with the key codec,
value bytes with the value codec; either failure is a decoding error. -/
def decodeEntry (kS : Serde K) (vS : Serde V) (e : Bytes × Bytes) :
    Except TypedStoreError (K × V) :=
  match kS.deser e.1 with
  | .error er => .error er
  | .ok k =>
    match vS.deser e.2 with
    | .error er => .error er
    | .ok v => .ok (k, v)

/-- Modelled from the spec: one advancement of the Iter cursor. Exhaustion is
signalled by none, is not an error, and is terminal; otherwise the current
entry is decoded and the position advances. -/
def Iter.next (kS : Serde K) (vS : Serde V) (it : Iter K V) :
    Option (Except TypedStoreError (K × V)) × Iter K V :=
  match it.entries with
  | [] => (none, ⟨[]⟩)
  | e :: rest => (some (decodeEntry kS vS e), ⟨rest⟩)

/-- Modelled from the spec: one advancement of the Keys cursor; only the key
side is decoded, the value bytes are never passed to a deserializer. -/
def Keys.next (kS : Serde K) (it : Keys K) :
    Option (Except TypedStoreError K) × Keys K :=
  match it.entries with
  | [] => (none, ⟨[]⟩)
  | e :: rest => (some (kS.deser e.1), ⟨rest⟩)

/-- Modelled from the spec: one advancement of the Values cursor; only the
value side is decoded. -/
def Values.next (vS : Serde V) (it : Values V) :
    Option (Except TypedStoreError V) × Values V :=
  match it.entries with
  | [] => (none, ⟨[]⟩)
  | e :: rest => (some (vS.deser e.2), ⟨rest⟩)

/-- n successive advancements of an Iter cursor, collecting the outcomes. -/
def Iter.nextN (kS : Serde K) (vS : Serde V) :
    Nat → Iter K V → List (Option (Except TypedStoreError (K × V))) × Iter K V
  | 0, it => ([], it)
  | n + 1, it =>
    match Iter.next kS vS it with
    | (o, it₁) =>
      match Iter.nextN kS vS n it₁ with
      | (os, it₂) => (o :: os, it₂)

/-- n successive advancements of a Keys cursor, collecting the outcomes. -/
def Keys.nextN (kS : Serde K) :
    Nat → Keys K → List (Option (Except TypedStoreError K)) × Keys K
  | 0, it => ([], it)
  | n + 1, it =>
    match Keys.next kS it with
    | (o, it₁) =>
      match Keys.nextN kS n it₁ with
      | (os, it₂) => (o :: os, it₂)

/-- n successive advancements of a Values cursor, collecting the outcomes. -/
def Values.nextN (vS : Serde V) :
    Nat → Values V → List (Option (Except TypedStoreError V)) × Values V
  | 0, it => ([], it)
  | n + 1, it =>
    match Values.next vS it with
    | (o, it₁) =>
      match Values.nextN vS n it₁ with
      | (os, it₂) => (o :: os, it₂)

/-- Map::iter for DBMap: resolves the column family handle (which may panic),
creates the raw iterator seeked to the first key, and wraps it. -/
def DBMap.iter (db : DBMap K V) (s : RocksDB) : PResult (Iter K V) :=
  match db.cfHandle s with
  | .panicked m => .panicked m
  | .err e => .err e
  | .ok cf => .ok ⟨s.entriesOf cf⟩

/-- Map::keys for DBMap: same seeded raw iterator, wrapped as a Keys cursor. -/
def DBMap.keys (db : DBMap K V) (s : RocksDB) : PResult (Keys K) :=
  match db.cfHandle s with
  | .panicked m => .panicked m
  | .err e => .err e
  | .ok cf => .ok ⟨s.entriesOf cf⟩

/-- Map::values for DBMap: same seeded raw iterator, wrapped as a Values
cursor. -/
def DBMap.values (db : DBMap K V) (s : RocksDB) : PResult (Values V) :=
  match db.cfHandle s with
  | .panicked m => .panicked m
  | .err e => .err e
  | .ok cf => .ok ⟨s.entriesOf cf⟩

/-- A concrete codec for Nat standing in for a u32 key or value under the
source's bincode configuration: four big-endian bytes. Used to instantiate
the generic theorems at concrete inputs. -/
def serdeNat : Serde Nat :=
  ⟨fun n => .ok (encBE 4 (n % 2 ^ 32)),
   fun bs =>
     match bs with
     | [a, b, c, d] => .ok (((a * 256 + b) * 256 + c) * 256 + d)
     | _ => .error (.SerializationError "invalid length")⟩

/-- A codec whose serializer always fails: stands in for a key or value type
whose bincode serialization fails. -/
def failSerde : Serde Nat :=
  ⟨fun _ => .error (.SerializationError "serialize failed"),
   fun _ => .error (.SerializationError "deserialize failed")⟩

/-- Serialization of a pair list exactly as the insert_batch loop performs
it: key first, then value, first failure aborting. -/
def serPairs (kS : Serde K) (vS : Serde V) : List (K × V) → Except TypedStoreError (List (Bytes × Bytes))
  | [] => .ok []
  | (k, v) :: rest =>
    match kS.ser k with
    | .error e => .error e
    | .ok kb =>
      match vS.ser v with
      | .error e => .error e
      | .ok vb =>
        match serPairs kS vS rest with
        | .error e => .error e
        | .ok ps => .ok ((kb, vb) :: ps)

/-- A concrete engine state for exercising cursors: one column family
holding the keys 2 and 1 (written in that order). -/
def cursorWitnessState : RocksDB :=
  ⟨["cf1"], [(("cf1", [0, 0, 0, 2]), [0, 0, 0, 8]), (("cf1", [0, 0, 0, 1]), [0, 0, 0, 7])]⟩

/-! Basic facts about the byte-lexicographic order. -/

theorem lexLt_irrefl (a : Bytes) : lexLt a a = false := by
  induction a with
  | nil => rfl
  | cons x xs ih => simp [lexLt, ih]

theorem lexLt_asymm : ∀ {a b : Bytes}, lexLt a b = true → lexLt b a = false := by
  intro a
  induction a with
  | nil =>
    intro b h
    cases b with
    | nil => simp [lexLt] at h
    | cons y ys => rfl
  | cons x xs ih =>
    intro b h
    cases b with
    | nil => simp [lexLt] at h
    | cons y ys =>
      simp only [lexLt] at h ⊢
      by_cases hxy : x < y
      · have hyx : ¬ y < x := by omega
        simp [hxy, hyx]
      · by_cases hyx : y < x
        · simp [hxy, hyx] at h
        · simp only [hxy, hyx, if_false] at h ⊢
          simp [ih h]

theorem lexLt_trans : ∀ {a b c : Bytes}, lexLt a b = true → lexLt b c = true → lexLt a c = true := by
  intro a
  induction a with
  | nil =>
    intro b c hab hbc
    cases c with
    | nil =>
      cases b with
      | nil => exact hab
      | cons y ys => simp [lexLt] at hbc
    | cons z zs => rfl
  | cons x xs ih =>
    intro b c hab hbc
    cases b with
    | nil => simp [lexLt] at hab
    | cons y ys =>
      cases c with
      | nil => simp [lexLt] at hbc
      | cons z zs =>
        simp only [lexLt] at hab hbc ⊢
        by_cases hxy : x < y <;> by_cases hyz : y < z
        · have : x < z := by omega
          simp [this]
        · have hzy : ¬ z < y := by simp [lexLt, hyz] at hbc; omega
          have hzy' : z = y := by simp [hyz] at hbc; omega
          have : x < z := by omega
          simp [this]
        · have hyx : ¬ y < x := by simp [hxy] at hab; omega
          have hxy' : x = y := by simp [hxy] at hab; omega
          have : x < z := by omega
          simp [this]
        · simp [hxy] at hab
          simp [hyz] at hbc
          obtain ⟨hyx, hab⟩ := hab
          obtain ⟨hzy, hbc⟩ := hbc
          have hxz : ¬ x < z := by omega
          have hzx : ¬ z < x := by omega
          simp [hxz, hzx]
          exact ih hab hbc

theorem lexLt_connex : ∀ {a b : Bytes}, lexLt a b = false → lexLt b a = false → a = b := by
  intro a
  induction a with
  | nil =>
    intro b hab _
    cases b with
    | nil => rfl
    | cons y ys => simp [lexLt] at hab
  | cons x xs ih =>
    intro b hab hba
    cases b with
    | nil => simp [lexLt] at hba
    | cons y ys =>
      simp only [lexLt] at hab hba
      by_cases hxy : x < y
      · simp [hxy] at hab
      · by_cases hyx : y < x
        · simp [hyx, hxy] at hba
        · have hx : x = y := by omega
          simp only [hxy, hyx, if_false] at hab hba
          have := ih hab hba
          rw [hx, this]

theorem byteLe_total (a b : Bytes) : byteLe a b ∨ byteLe b a := by
  by_cases h : lexLt b a = true
  · right
    show lexLe b a = true
    unfold lexLe
    rw [lexLt_asymm h]
    rfl
  · left
    show lexLe a b = true
    unfold lexLe
    simp only [Bool.not_eq_true] at h
    rw [h]
    rfl

theorem byteLe_trans {a b c : Bytes} : byteLe a b → byteLe b c → byteLe a c := by
  intro hab hbc
  have hba : lexLt b a = false := by
    have h' : lexLe a b = true := hab
    unfold lexLe at h'
    simpa using h'
  have hcb : lexLt c b = false := by
    have h' : lexLe b c = true := hbc
    unfold lexLe at h'
    simpa using h'
  show lexLe a c = true
  unfold lexLe
  by_cases hca : lexLt c a = true
  · by_cases hbc' : lexLt b c = true
    · have h3 := lexLt_trans hbc' hca
      simp [hba] at h3
    · simp only [Bool.not_eq_true] at hbc'
      have hbceq : b = c := lexLt_connex hbc' hcb
      subst hbceq
      simp [hba] at hca
  · simp only [Bool.not_eq_true] at hca
    rw [hca]
    rfl

instance : IsTotal Bytes byteLe := ⟨byteLe_total⟩

instance : IsTrans Bytes byteLe := ⟨fun _ _ _ => byteLe_trans⟩

theorem byteLe_ne_lt {a b : Bytes} (h : byteLe a b) (hne : a ≠ b) : lexLt a b = true := by
  have hba : lexLt b a = false := by
    have h' : lexLe a b = true := h
    unfold lexLe at h'
    simpa using h'
  by_cases hab : lexLt a b = true
  · exact hab
  · simp only [Bool.not_eq_true] at hab
    exact absurd (lexLt_connex hab hba) hne

/-- C1 (amended): for keys that the configured codec writes as fixed-width
big-endian unsigned integers, the natural order agrees with the
byte-lexicographic order of the encodings. -/
theorem unsigned_key_encoding_preserves_order (w : Nat) :
    ∀ a b : Nat, a < 256 ^ w → b < 256 ^ w →
      (a < b ↔ lexLt (encBE w a) (encBE w b) = true) := by
  induction w with
  | zero =>
    intro a b ha hb
    simp only [pow_zero, Nat.lt_one_iff] at ha hb
    subst ha
    subst hb
    simp [encBE, lexLt]
  | succ w ih =>
    intro a b _ _
    have hE : 0 < 256 ^ w := pow_pos (by norm_num) w
    have hra : a % 256 ^ w < 256 ^ w := Nat.mod_lt _ hE
    have hrb : b % 256 ^ w < 256 ^ w := Nat.mod_lt _ hE
    have hda := Nat.div_add_mod a (256 ^ w)
    have hdb := Nat.div_add_mod b (256 ^ w)
    simp only [encBE, lexLt]
    by_cases h1 : a / 256 ^ w < b / 256 ^ w
    · have h2 : 256 ^ w * (a / 256 ^ w) + 256 ^ w ≤ 256 ^ w * (b / 256 ^ w) := by
        have h3 : 256 ^ w * (a / 256 ^ w + 1) ≤ 256 ^ w * (b / 256 ^ w) :=
          Nat.mul_le_mul_left _ h1
        rw [Nat.mul_add, Nat.mul_one] at h3
        exact h3
      simp only [if_pos h1, iff_true]
      omega
    · by_cases h1' : b / 256 ^ w < a / 256 ^ w
      · have h2 : 256 ^ w * (b / 256 ^ w) + 256 ^ w ≤ 256 ^ w * (a / 256 ^ w) := by
          have h3 : 256 ^ w * (b / 256 ^ w + 1) ≤ 256 ^ w * (a / 256 ^ w) :=
            Nat.mul_le_mul_left _ h1'
          rw [Nat.mul_add, Nat.mul_one] at h3
          exact h3
        simp only [if_neg h1, if_pos h1']
        constructor
        · intro h
          exfalso
          omega
        · intro h
          exact absurd h (by simp)
      · have hq : a / 256 ^ w = b / 256 ^ w := by omega
        rw [← hq] at hdb
        simp only [if_neg h1, if_neg h1']
        rw [← ih (a % 256 ^ w) (b % 256 ^ w) hra hrb]
        omega

/-- C1 counterexample: the source's key codec writes signed integers in
two's complement, so for a one-byte signed key the pair a = -1, b = 0 has
a < b while encode(a) = [255] is byte-lexicographically above
encode(b) = [0]: the claimed equivalence fails on signed key types. -/
theorem signed_key_encoding_breaks_order :
    ¬ (((-1 : Int) < 0) ↔ lexLt (encSignedBE 1 (-1)) (encSignedBE 1 0) = true) := by
  decide

/-- C1 witness: the amended equivalence applied at the two-byte keys 1 and
258, whose encodings are [0, 1] and [1, 2]. -/
theorem unsigned_key_encoding_preserves_order_witness :
    lexLt (encBE 2 1) (encBE 2 258) = true :=
  (unsigned_key_encoding_preserves_order 2 1 258 (by decide) (by decide)).mp (by decide)

/-! Lemmas about the idealized engine's entry list. -/

theorem assocFind_removeKey (k : String × Bytes) (l : List ((String × Bytes) × Bytes)) :
    assocFind k (removeKey k l) = none := by
  induction l with
  | nil => rfl
  | cons e rest ih =>
    by_cases h : e.1 = k
    · simp only [removeKey, if_pos h]
      exact ih
    · simp only [removeKey, if_neg h, assocFind, ih]

theorem assocFind_removeRange (cf : String) (lo hi kb : Bytes)
    (l : List ((String × Bytes) × Bytes)) :
    assocFind (cf, kb) (removeRange cf lo hi l) =
      if (lexLe lo kb && lexLt kb hi) = true then none else assocFind (cf, kb) l := by
  induction l with
  | nil =>
    simp [removeRange, assocFind]
  | cons e rest ih =>
    by_cases hin : inRange cf lo hi e.1 = true
    · simp only [removeRange, if_pos hin]
      rw [ih]
      by_cases hr : (lexLe lo kb && lexLt kb hi) = true
      · simp [hr]
      · simp only [if_neg hr]
        have hne : e.1 ≠ (cf, kb) := by
          intro heq
          rw [heq] at hin
          simp [inRange] at hin
          exact hr (by simp [hin])
        simp [assocFind, hne]
    · simp only [removeRange, if_neg hin]
      by_cases he : e.1 = (cf, kb)
      · have hr : ¬ (lexLe lo kb && lexLt kb hi) = true := by
          intro hr
          apply hin
          rw [he]
          simp only [inRange]
          simp at hr
          simp [hr]
        simp [assocFind, he, hr]
      · simp only [assocFind, if_neg he]
        exact ih

/-- C5: after insert(k, v) succeeds, get(k) returns Some(v); after remove(k)
succeeds, get(k) returns None; get on a key whose encoding is absent returns
ok-none rather than an error; and remove of an absent key succeeds. -/
theorem point_ops_roundtrip (kS : Serde K) (vS : Serde V) (db : DBMap K V) (s : RocksDB)
    (k : K) (v : V) (kb vb : Bytes)
    (hcf : db.cf ∈ s.cfs)
    (hk : kS.ser k = .ok kb)
    (hv : vS.ser v = .ok vb)
    (hrt : vS.deser vb = .ok v) :
    (∃ s₁, DBMap.insert kS vS db s k v = .ok s₁ ∧
       DBMap.get kS vS db s₁ k = .ok (some v) ∧
       ∃ s₂, DBMap.remove kS db s₁ k = .ok s₂ ∧
         DBMap.get kS vS db s₂ k = .ok none) ∧
    (s.rawGet db.cf kb = none → DBMap.get kS vS db s k = .ok none) ∧
    (∃ s₃, DBMap.remove kS db s k = .ok s₃) := by
  have hch : db.cfHandle s = .ok db.cf := by
    simp [DBMap.cfHandle, hcf]
  refine ⟨?_, ?_, ?_⟩
  · refine ⟨s.rawPut db.cf kb vb, ?_, ?_, ?_⟩
    · simp [DBMap.insert, hk, hv, hch]
    · simp [DBMap.get, hk, DBMap.cfHandle, RocksDB.rawPut, hcf, RocksDB.rawGet, assocFind, hrt]
    · refine ⟨(s.rawPut db.cf kb vb).rawDelete db.cf kb, ?_, ?_⟩
      · simp [DBMap.remove, hk, DBMap.cfHandle, RocksDB.rawPut, hcf]
      · simp [DBMap.get, hk, DBMap.cfHandle, RocksDB.rawPut, RocksDB.rawDelete, hcf,
          RocksDB.rawGet, assocFind_removeKey]
  · intro habs
    simp [DBMap.get, hk, hch, habs]
  · exact ⟨s.rawDelete db.cf kb, by simp [DBMap.remove, hk, hch]⟩

/-- C5 witness: the point-operation contract at a concrete map and state. -/
theorem point_ops_roundtrip_witness :
    ∃ s₁, DBMap.insert serdeNat serdeNat (⟨0, "cf1"⟩ : DBMap Nat Nat) ⟨["cf1"], []⟩ 1 2 = .ok s₁ ∧
      DBMap.get serdeNat serdeNat (⟨0, "cf1"⟩ : DBMap Nat Nat) s₁ 1 = .ok (some 2) ∧
      ∃ s₂, DBMap.remove serdeNat (⟨0, "cf1"⟩ : DBMap Nat Nat) s₁ 1 = .ok s₂ ∧
        DBMap.get serdeNat serdeNat (⟨0, "cf1"⟩ : DBMap Nat Nat) s₂ 1 = .ok none :=
  (point_ops_roundtrip serdeNat serdeNat ⟨0, "cf1"⟩ ⟨["cf1"], []⟩ 1 2 [0, 0, 0, 1] [0, 0, 0, 2]
    (by decide) rfl rfl rfl).1

/-- C3: staging any operation through a map whose engine instance differs
from the batch's fails with CrossDBBatch; the error is returned before any
operation is appended and before any engine mutation (the staging functions
return only the error, no batch and no state). -/
theorem cross_engine_staging_rejected (kS : Serde K) (vS : Serde V) (b : DBBatch)
    (db : DBMap K V) (pairs : List (K × V)) (ks : List K) (lo hi : K) (s : RocksDB)
    (hne : db.instanceId ≠ b.instanceId) :
    DBBatch.insert_batch kS vS b db pairs s = .err .CrossDBBatch ∧
    DBBatch.delete_batch kS b db ks s = .err .CrossDBBatch ∧
    DBBatch.delete_range kS b db lo hi s = .err .CrossDBBatch := by
  refine ⟨?_, ?_, ?_⟩ <;>
    simp [DBBatch.insert_batch, DBBatch.delete_batch, DBBatch.delete_range, hne]

/-- C3 witness: a batch bound to instance 0 rejects staging through a map
bound to instance 1. -/
theorem cross_engine_staging_rejected_witness :
    DBBatch.insert_batch serdeNat serdeNat ⟨0, []⟩ (⟨1, "cf1"⟩ : DBMap Nat Nat) [(1, 2)] ⟨["cf1"], []⟩ =
      .err .CrossDBBatch ∧
    DBBatch.delete_batch serdeNat ⟨0, []⟩ (⟨1, "cf1"⟩ : DBMap Nat Nat) [3] ⟨["cf1"], []⟩ =
      .err .CrossDBBatch ∧
    DBBatch.delete_range serdeNat ⟨0, []⟩ (⟨1, "cf1"⟩ : DBMap Nat Nat) 0 5 ⟨["cf1"], []⟩ =
      .err .CrossDBBatch :=
  cross_engine_staging_rejected serdeNat serdeNat ⟨0, []⟩ ⟨1, "cf1"⟩ [(1, 2)] [3] 0 5 ⟨["cf1"], []⟩
    (by decide)

/-- C6: staging delete_range(lo, hi) on a fresh batch and committing removes
exactly the raw keys in the half-open byte interval [encode(lo), encode(hi)):
the lower bound is inclusive, the upper bound exclusive, and the key equal to
encode(hi) keeps whatever entry it had. -/
theorem delete_range_bounds (kS : Serde K) (db : DBMap K V) (s : RocksDB)
    (lo hi : K) (fb tb : Bytes)
    (hcf : db.cf ∈ s.cfs)
    (hlo : kS.ser lo = .ok fb)
    (hhi : kS.ser hi = .ok tb) :
    ∃ b', DBBatch.delete_range kS (DBMap.batch db) db lo hi s = .ok b' ∧
      ∃ s', b'.write s = .ok s' ∧
        (∀ kb, s'.rawGet db.cf kb =
          if (lexLe fb kb && lexLt kb tb) = true then none else s.rawGet db.cf kb) ∧
        s'.rawGet db.cf tb = s.rawGet db.cf tb := by
  have hch : db.cfHandle s = .ok db.cf := by
    simp [DBMap.cfHandle, hcf]
  refine ⟨⟨db.instanceId, [BatchOp.delRange db.cf fb tb]⟩, ?_, ?_⟩
  · simp [DBBatch.delete_range, DBMap.batch, hlo, hhi, hch]
  · refine ⟨s.rawDeleteRange db.cf fb tb, ?_, ?_, ?_⟩
    · simp [DBBatch.write, RocksDB.applyOp]
    · intro kb
      simp only [RocksDB.rawGet, RocksDB.rawDeleteRange]
      exact assocFind_removeRange db.cf fb tb kb s.data
    · simp only [RocksDB.rawGet, RocksDB.rawDeleteRange]
      rw [assocFind_removeRange db.cf fb tb tb s.data]
      simp [lexLt_irrefl]

/-- C6 witness: the range delete applied over a concrete state holding the
keys 1, 2 and 3, deleting [encode(2), encode(3)). -/
theorem delete_range_bounds_witness :
    ∃ b', DBBatch.delete_range serdeNat (DBMap.batch (⟨0, "cf1"⟩ : DBMap Nat Nat))
        (⟨0, "cf1"⟩ : DBMap Nat Nat) 2 3 ⟨["cf1"], [(("cf1", [0, 0, 0, 2]), [9])]⟩ = .ok b' ∧
      ∃ s', b'.write ⟨["cf1"], [(("cf1", [0, 0, 0, 2]), [9])]⟩ = .ok s' ∧
        (∀ kb, s'.rawGet "cf1" kb =
          if (lexLe [0, 0, 0, 2] kb && lexLt kb [0, 0, 0, 3]) = true then none
          else RocksDB.rawGet ⟨["cf1"], [(("cf1", [0, 0, 0, 2]), [9])]⟩ "cf1" kb) ∧
        s'.rawGet "cf1" [0, 0, 0, 3] =
          RocksDB.rawGet ⟨["cf1"], [(("cf1", [0, 0, 0, 2]), [9])]⟩ "cf1" [0, 0, 0, 3] :=
  delete_range_bounds serdeNat ⟨0, "cf1"⟩ ⟨["cf1"], [(("cf1", [0, 0, 0, 2]), [9])]⟩ 2 3
    [0, 0, 0, 2] [0, 0, 0, 3] (by decide) rfl rfl

/-- C10: clear() discards any error from dropping the column family: its
result is exactly the result of the recreate step, so when the drop fails
(the family is absent) clear still returns ok. -/
theorem clear_ignores_drop_error (db : DBMap K V) (s : RocksDB)
    (h : ∃ e, s.dropCf db.cf = .error e) :
    ∃ s', DBMap.clear db s = .ok s' ∧ s.createCf db.cf = .ok s' := by
  obtain ⟨e, he⟩ := h
  have hmem : db.cf ∉ s.cfs := by
    intro hm
    simp [RocksDB.dropCf, hm] at he
  refine ⟨⟨db.cf :: s.cfs, s.data⟩, ?_, ?_⟩
  · simp [DBMap.clear, RocksDB.dropCf, hmem, RocksDB.createCf]
  · simp [RocksDB.createCf, hmem]

/-- C10 witness: clearing a map whose column family is missing: the drop
step fails, the failure is swallowed, and clear returns ok. -/
theorem clear_ignores_drop_error_witness :
    ∃ s', DBMap.clear (⟨0, "cf1"⟩ : DBMap Nat Nat) ⟨[], []⟩ = .ok s' ∧
      RocksDB.createCf ⟨[], []⟩ "cf1" = .ok s' :=
  clear_ignores_drop_error ⟨0, "cf1"⟩ ⟨[], []⟩
    ⟨.RocksDBError "Invalid argument: Column family not found", rfl⟩

/-! The pairwise encoding that insert_batch performs, and how staging relates
to it. -/

theorem stagePuts_ok (kS : Serde K) (vS : Serde V) (db : DBMap K V) (s : RocksDB)
    (hcf : db.cf ∈ s.cfs) :
    ∀ (pairs : List (K × V)) (acc : List BatchOp) (ps : List (Bytes × Bytes)),
      serPairs kS vS pairs = .ok ps →
      stagePuts kS vS db s pairs acc =
        .ok (acc ++ ps.map (fun p => BatchOp.put db.cf p.1 p.2)) := by
  have hch : db.cfHandle s = .ok db.cf := by simp [DBMap.cfHandle, hcf]
  intro pairs
  induction pairs with
  | nil =>
    intro acc ps h
    simp only [serPairs, Except.ok.injEq] at h
    subst h
    simp [stagePuts]
  | cons kv rest ih =>
    intro acc ps h
    obtain ⟨k, v⟩ := kv
    simp only [serPairs] at h
    cases hk : kS.ser k with
    | error e =>
      rw [hk] at h
      simp at h
    | ok kb =>
      rw [hk] at h
      cases hv : vS.ser v with
      | error e =>
        rw [hv] at h
        simp at h
      | ok vb =>
        rw [hv] at h
        cases hr : serPairs kS vS rest with
        | error e =>
          rw [hr] at h
          simp at h
        | ok ps' =>
          rw [hr] at h
          simp only [Except.ok.injEq] at h
          subst h
          simp only [stagePuts, hk, hv, hch]
          rw [ih (acc ++ [BatchOp.put db.cf kb vb]) ps' hr]
          simp

theorem stagePuts_err (kS : Serde K) (vS : Serde V) (db : DBMap K V) (s : RocksDB)
    (hcf : db.cf ∈ s.cfs) :
    ∀ (pairs : List (K × V)) (acc : List BatchOp) (e : TypedStoreError),
      serPairs kS vS pairs = .error e →
      stagePuts kS vS db s pairs acc = .err e := by
  have hch : db.cfHandle s = .ok db.cf := by simp [DBMap.cfHandle, hcf]
  intro pairs
  induction pairs with
  | nil =>
    intro acc e h
    simp [serPairs] at h
  | cons kv rest ih =>
    intro acc e h
    obtain ⟨k, v⟩ := kv
    simp only [serPairs] at h
    cases hk : kS.ser k with
    | error e' =>
      rw [hk] at h
      simp only [Except.error.injEq] at h
      subst h
      simp [stagePuts, hk]
    | ok kb =>
      rw [hk] at h
      cases hv : vS.ser v with
      | error e' =>
        rw [hv] at h
        simp only [Except.error.injEq] at h
        subst h
        simp [stagePuts, hk, hv]
      | ok vb =>
        rw [hv] at h
        cases hr : serPairs kS vS rest with
        | error e' =>
          rw [hr] at h
          simp only [Except.error.injEq] at h
          subst h
          simp only [stagePuts, hk, hv, hch]
          exact ih _ _ hr
        | ok ps' =>
          rw [hr] at h
          simp at h

/-- C9: when encoding any key or value of the pair iterator fails,
insert_batch returns that error for the whole call; no batch value is
produced, so nothing partially staged can later be committed by write(). -/
theorem insert_batch_encoding_failure_aborts (kS : Serde K) (vS : Serde V) (b : DBBatch)
    (db : DBMap K V) (pairs : List (K × V)) (s : RocksDB) (e : TypedStoreError)
    (hid : db.instanceId = b.instanceId)
    (hcf : db.cf ∈ s.cfs)
    (hfail : serPairs kS vS pairs = .error e) :
    DBBatch.insert_batch kS vS b db pairs s = .err e := by
  simp [DBBatch.insert_batch, hid, stagePuts_err kS vS db s hcf pairs b.ops e hfail]

/-- C9 witness: a key serializer that fails makes insert_batch return its
error at a concrete batch and state. -/
theorem insert_batch_encoding_failure_aborts_witness :
    DBBatch.insert_batch failSerde serdeNat ⟨0, []⟩ (⟨0, "cf1"⟩ : DBMap Nat Nat) [(1, 2)]
      ⟨["cf1"], []⟩ = .err (.SerializationError "serialize failed") :=
  insert_batch_encoding_failure_aborts failSerde serdeNat ⟨0, []⟩ ⟨0, "cf1"⟩ [(1, 2)]
    ⟨["cf1"], []⟩ (.SerializationError "serialize failed") rfl (by decide) rfl

/-! multi_get lemmas. -/

theorem serKeys_zip (kS : Serde K) :
    ∀ (keys : List K) (kbs : List Bytes),
      serKeys kS keys = .ok kbs →
      kbs.length = keys.length ∧ ∀ p ∈ keys.zip kbs, kS.ser p.1 = .ok p.2 := by
  intro keys
  induction keys with
  | nil =>
    intro kbs h
    simp only [serKeys, Except.ok.injEq] at h
    subst h
    simp
  | cons k rest ih =>
    intro kbs h
    simp only [serKeys] at h
    cases hk : kS.ser k with
    | error e =>
      rw [hk] at h
      simp at h
    | ok kb =>
      rw [hk] at h
      cases hr : serKeys kS rest with
      | error e =>
        rw [hr] at h
        simp at h
      | ok kbs' =>
        rw [hr] at h
        simp only [Except.ok.injEq] at h
        subst h
        obtain ⟨hlen, hmem⟩ := ih kbs' hr
        constructor
        · simp [hlen]
        · intro p hp
          simp only [List.zip_cons_cons, List.mem_cons] at hp
          cases hp with
          | inl hp => subst hp; exact hk
          | inr hp => exact hmem p hp

theorem decodeResults_map_zip (vS : Serde V) (f : Bytes → Option Bytes) :
    ∀ (kbs : List Bytes) (vals : List (Option V)),
      decodeResults vS (kbs.map f) = .ok vals →
      vals.length = kbs.length ∧
      ∀ p ∈ kbs.zip vals,
        (f p.1 = none → p.2 = none) ∧
        (∀ bs, f p.1 = some bs → ∃ v, vS.deser bs = .ok v ∧ p.2 = some v) := by
  intro kbs
  induction kbs with
  | nil =>
    intro vals h
    simp only [List.map_nil, decodeResults, Except.ok.injEq] at h
    subst h
    simp
  | cons kb rest ih =>
    intro vals h
    simp only [List.map_cons] at h
    cases hf : f kb with
    | none =>
      rw [hf] at h
      simp only [decodeResults] at h
      cases hr : decodeResults vS (rest.map f) with
      | error e =>
        rw [hr] at h
        simp at h
      | ok vs =>
        rw [hr] at h
        simp only [Except.ok.injEq] at h
        subst h
        obtain ⟨hlen, hmem⟩ := ih vs hr
        refine ⟨by simp [hlen], ?_⟩
        intro p hp
        simp only [List.zip_cons_cons, List.mem_cons] at hp
        cases hp with
        | inl hp =>
          subst hp
          exact ⟨fun _ => rfl, fun bs hbs => absurd (hf ▸ hbs) (by simp [hf])⟩
        | inr hp => exact hmem p hp
    | some bs =>
      rw [hf] at h
      simp only [decodeResults] at h
      cases hd : vS.deser bs with
      | error e =>
        rw [hd] at h
        simp at h
      | ok v =>
        rw [hd] at h
        cases hr : decodeResults vS (rest.map f) with
        | error e =>
          rw [hr] at h
          simp at h
        | ok vs =>
          rw [hr] at h
          simp only [Except.ok.injEq] at h
          subst h
          obtain ⟨hlen, hmem⟩ := ih vs hr
          refine ⟨by simp [hlen], ?_⟩
          intro p hp
          simp only [List.zip_cons_cons, List.mem_cons] at hp
          cases hp with
          | inl hp =>
            subst hp
            refine ⟨fun hn => ?_, fun bs' hbs' => ?_⟩
            · rw [hf] at hn
              cases hn
            · rw [hf] at hbs'
              simp only [Option.some.injEq] at hbs'
              subst hbs'
              exact ⟨v, hd, rfl⟩
          | inr hp => exact hmem p hp

theorem decodeResults_ok_of_mem (vS : Serde V) :
    ∀ (obs : List (Option Bytes)) (vals : List (Option V)),
      decodeResults vS obs = .ok vals →
      ∀ bs, some bs ∈ obs → ∃ v, vS.deser bs = .ok v := by
  intro obs
  induction obs with
  | nil =>
    intro vals _ bs hbs
    simp at hbs
  | cons ob rest ih =>
    intro vals h bs hbs
    simp only [List.mem_cons] at hbs
    cases hbs with
    | inl hbs =>
      subst hbs
      simp only [decodeResults] at h
      cases hd : vS.deser bs with
      | error e =>
        rw [hd] at h
        simp at h
      | ok v => exact ⟨v, rfl⟩
    | inr hbs =>
      cases ob with
      | none =>
        simp only [decodeResults] at h
        cases hr : decodeResults vS rest with
        | error e =>
          rw [hr] at h
          simp at h
        | ok vs => exact ih vs hr bs hbs
      | some bs' =>
        simp only [decodeResults] at h
        cases hd : vS.deser bs' with
        | error e =>
          rw [hd] at h
          simp at h
        | ok v =>
          rw [hd] at h
          cases hr : decodeResults vS rest with
          | error e =>
            rw [hr] at h
            simp at h
          | ok vs => exact ih vs hr bs hbs

/-- C4: under successful key encoding, a successful multi_get returns a list
of the same length as the input whose position i is none exactly when key i
is absent and the decoded stored value when present; and when any present
key's stored bytes fail to decode, the whole call is an error, never an ok
list with entries dropped. -/
theorem multi_get_positional (kS : Serde K) (vS : Serde V) (db : DBMap K V) (s : RocksDB)
    (keys : List K) (kbs : List Bytes)
    (hcf : db.cf ∈ s.cfs)
    (hser : serKeys kS keys = .ok kbs) :
    (∀ res, DBMap.multi_get kS vS db s keys = .ok res →
       res.length = keys.length ∧
       ∀ p ∈ kbs.zip res,
         (s.rawGet db.cf p.1 = none → p.2 = none) ∧
         (∀ bs, s.rawGet db.cf p.1 = some bs → ∃ v, vS.deser bs = .ok v ∧ p.2 = some v)) ∧
    ((∃ kb ∈ kbs, ∃ bs, s.rawGet db.cf kb = some bs ∧ ∀ v, vS.deser bs ≠ .ok v) →
       ∀ res, DBMap.multi_get kS vS db s keys ≠ .ok res) := by
  have hch : db.cfHandle s = .ok db.cf := by simp [DBMap.cfHandle, hcf]
  have hklen := (serKeys_zip kS keys kbs hser).1
  constructor
  · intro res hok
    simp only [DBMap.multi_get, hch, hser] at hok
    cases hd : decodeResults vS (kbs.map (s.rawGet db.cf)) with
    | error e =>
      rw [hd] at hok
      simp at hok
    | ok vals =>
      rw [hd] at hok
      simp only [PResult.ok.injEq] at hok
      subst hok
      obtain ⟨hlen, hmem⟩ := decodeResults_map_zip vS (s.rawGet db.cf) kbs vals hd
      exact ⟨by rw [hlen, hklen], hmem⟩
  · rintro ⟨kb, hkb, bs, hbs, hdec⟩ res hok
    simp only [DBMap.multi_get, hch, hser] at hok
    cases hd : decodeResults vS (kbs.map (s.rawGet db.cf)) with
    | error e =>
      rw [hd] at hok
      simp at hok
    | ok vals =>
      have hmem : some bs ∈ kbs.map (s.rawGet db.cf) := by
        rw [← hbs]
        exact List.mem_map_of_mem _ hkb
      obtain ⟨v, hv⟩ := decodeResults_ok_of_mem vS _ vals hd bs hmem
      exact hdec v hv

/-! Write-commit lemmas: how a committed sequence of staged puts shows up in
point lookups. -/

theorem cfs_foldl_applyOp : ∀ (ops : List BatchOp) (s : RocksDB),
    (List.foldl RocksDB.applyOp s ops).cfs = s.cfs := by
  intro ops
  induction ops with
  | nil => intro s; rfl
  | cons op rest ih =>
    intro s
    rw [List.foldl_cons, ih]
    cases op <;> rfl

theorem rawGet_foldl_puts_untouched (cf cf' : String) (kb : Bytes) :
    ∀ (ps : List (Bytes × Bytes)) (s : RocksDB),
      (∀ p ∈ ps, (cf, p.1) ≠ (cf', kb)) →
      RocksDB.rawGet (List.foldl RocksDB.applyOp s (ps.map (fun p => BatchOp.put cf p.1 p.2)))
          cf' kb = s.rawGet cf' kb := by
  intro ps
  induction ps with
  | nil => intro s _; rfl
  | cons p rest ih =>
    intro s h
    simp only [List.map_cons, List.foldl_cons]
    rw [ih _ (fun q hq => h q (List.mem_cons_of_mem _ hq))]
    simp only [RocksDB.applyOp, RocksDB.rawPut, RocksDB.rawGet, assocFind]
    rw [if_neg (h p (List.mem_cons_self _ _))]

theorem rawGet_foldl_puts_mem (cf : String) :
    ∀ (ps : List (Bytes × Bytes)) (s : RocksDB) (kb vb : Bytes),
      (ps.map Prod.fst).Nodup → (kb, vb) ∈ ps →
      RocksDB.rawGet (List.foldl RocksDB.applyOp s (ps.map (fun p => BatchOp.put cf p.1 p.2)))
          cf kb = some vb := by
  intro ps
  induction ps with
  | nil =>
    intro s kb vb _ hmem
    simp at hmem
  | cons p rest ih =>
    intro s kb vb hnd hmem
    simp only [List.map_cons, List.nodup_cons] at hnd
    obtain ⟨hnotin, hnd'⟩ := hnd
    simp only [List.map_cons, List.foldl_cons]
    cases List.mem_cons.mp hmem with
    | inl heq =>
      rw [rawGet_foldl_puts_untouched cf cf kb rest _ ?_]
      · simp only [RocksDB.applyOp, RocksDB.rawPut, RocksDB.rawGet, assocFind]
        rw [← heq]
        simp
      · intro q hq hcontra
        apply hnotin
        have hq1 : q.1 = kb := by
          have := congrArg Prod.snd hcontra
          simpa using this
        have hpk : p.1 = kb := by rw [← heq]
        rw [hpk, ← hq1]
        exact List.mem_map_of_mem _ hq
    | inr hmem' => exact ih _ kb vb hnd' hmem'

theorem serPairs_mem (kS : Serde K) (vS : Serde V) :
    ∀ (pairs : List (K × V)) (ps : List (Bytes × Bytes)),
      serPairs kS vS pairs = .ok ps →
      ∀ p ∈ pairs, ∃ q ∈ ps, kS.ser p.1 = .ok q.1 ∧ vS.ser p.2 = .ok q.2 := by
  intro pairs
  induction pairs with
  | nil =>
    intro ps _ p hp
    simp at hp
  | cons kv rest ih =>
    intro ps h p hp
    obtain ⟨k, v⟩ := kv
    simp only [serPairs] at h
    cases hk : kS.ser k with
    | error e =>
      rw [hk] at h
      simp at h
    | ok kb =>
      rw [hk] at h
      cases hv : vS.ser v with
      | error e =>
        rw [hv] at h
        simp at h
      | ok vb =>
        rw [hv] at h
        cases hr : serPairs kS vS rest with
        | error e =>
          rw [hr] at h
          simp at h
        | ok ps' =>
          rw [hr] at h
          simp only [Except.ok.injEq] at h
          subst h
          cases List.mem_cons.mp hp with
          | inl hp' =>
            subst hp'
            exact ⟨(kb, vb), List.mem_cons_self _ _, hk, hv⟩
          | inr hp' =>
            obtain ⟨q, hq, hqk, hqv⟩ := ih ps' hr p hp'
            exact ⟨q, List.mem_cons_of_mem _ hq, hqk, hqv⟩

/-- C2: a batch staged with insert_batch against two maps of the same engine
instance commits atomically with write(): after a successful write every
staged pair is visible through get on its map. Staging itself produces only
a batch value and never a new engine state, so before write (or if the batch
is dropped, or a staging call fails) the engine state is the unchanged s and
none of the staged pairs are visible through it. -/
theorem batch_write_commits_all_staged_ops
    (kSA : Serde K₁) (vSA : Serde V₁) (kSB : Serde K₂) (vSB : Serde V₂)
    (A : DBMap K₁ V₁) (B : DBMap K₂ V₂) (s : RocksDB)
    (pairsA : List (K₁ × V₁)) (pairsB : List (K₂ × V₂))
    (psA psB : List (Bytes × Bytes))
    (hid : B.instanceId = A.instanceId)
    (hcfA : A.cf ∈ s.cfs) (hcfB : B.cf ∈ s.cfs) (hAB : A.cf ≠ B.cf)
    (hsA : serPairs kSA vSA pairsA = .ok psA)
    (hsB : serPairs kSB vSB pairsB = .ok psB)
    (hndA : (psA.map Prod.fst).Nodup)
    (hndB : (psB.map Prod.fst).Nodup)
    (hrtA : ∀ p ∈ pairsA, ∀ bs, vSA.ser p.2 = .ok bs → vSA.deser bs = .ok p.2)
    (hrtB : ∀ p ∈ pairsB, ∀ bs, vSB.ser p.2 = .ok bs → vSB.deser bs = .ok p.2) :
    ∃ b₁, DBBatch.insert_batch kSA vSA (DBMap.batch A) A pairsA s = .ok b₁ ∧
    ∃ b₂, DBBatch.insert_batch kSB vSB b₁ B pairsB s = .ok b₂ ∧
    ∃ s', b₂.write s = .ok s' ∧
      (∀ p ∈ pairsA, DBMap.get kSA vSA A s' p.1 = .ok (some p.2)) ∧
      (∀ p ∈ pairsB, DBMap.get kSB vSB B s' p.1 = .ok (some p.2)) := by
  have hstA := stagePuts_ok kSA vSA A s hcfA pairsA [] psA hsA
  have hstB := stagePuts_ok kSB vSB B s hcfB pairsB
    (psA.map (fun p => BatchOp.put A.cf p.1 p.2)) psB hsB
  refine ⟨⟨A.instanceId, psA.map (fun p => BatchOp.put A.cf p.1 p.2)⟩, ?_, ?_⟩
  · simp [DBBatch.insert_batch, DBMap.batch, hstA]
  refine ⟨⟨A.instanceId, psA.map (fun p => BatchOp.put A.cf p.1 p.2) ++
      psB.map (fun p => BatchOp.put B.cf p.1 p.2)⟩, ?_, ?_⟩
  · simp [DBBatch.insert_batch, hid, hstB]
  have hwrite : DBBatch.write
      ⟨A.instanceId, psA.map (fun p => BatchOp.put A.cf p.1 p.2) ++
        psB.map (fun p => BatchOp.put B.cf p.1 p.2)⟩ s =
      .ok (List.foldl RocksDB.applyOp
        (List.foldl RocksDB.applyOp s (psA.map (fun p => BatchOp.put A.cf p.1 p.2)))
        (psB.map (fun p => BatchOp.put B.cf p.1 p.2))) := by
    simp [DBBatch.write, List.foldl_append]
  refine ⟨_, hwrite, ?_, ?_⟩
  · intro p hp
    obtain ⟨q, hq, hqk, hqv⟩ := serPairs_mem kSA vSA pairsA psA hsA p hp
    have hrg : RocksDB.rawGet (List.foldl RocksDB.applyOp
        (List.foldl RocksDB.applyOp s (psA.map (fun r => BatchOp.put A.cf r.1 r.2)))
        (psB.map (fun r => BatchOp.put B.cf r.1 r.2))) A.cf q.1 = some q.2 := by
      rw [rawGet_foldl_puts_untouched B.cf A.cf q.1 psB _ ?_]
      · exact rawGet_foldl_puts_mem A.cf psA s q.1 q.2 hndA (by simpa using hq)
      · intro r _ hcontra
        exact hAB (congrArg Prod.fst hcontra).symm
    have hcfs : (List.foldl RocksDB.applyOp
        (List.foldl RocksDB.applyOp s (psA.map (fun r => BatchOp.put A.cf r.1 r.2)))
        (psB.map (fun r => BatchOp.put B.cf r.1 r.2))).cfs = s.cfs := by
      rw [cfs_foldl_applyOp, cfs_foldl_applyOp]
    simp [DBMap.get, hqk, DBMap.cfHandle, hcfs, hcfA, hrg, hrtA p hp q.2 hqv]
  · intro p hp
    obtain ⟨q, hq, hqk, hqv⟩ := serPairs_mem kSB vSB pairsB psB hsB p hp
    have hrg : RocksDB.rawGet (List.foldl RocksDB.applyOp
        (List.foldl RocksDB.applyOp s (psA.map (fun r => BatchOp.put A.cf r.1 r.2)))
        (psB.map (fun r => BatchOp.put B.cf r.1 r.2))) B.cf q.1 = some q.2 :=
      rawGet_foldl_puts_mem B.cf psB _ q.1 q.2 hndB (by simpa using hq)
    have hcfs : (List.foldl RocksDB.applyOp
        (List.foldl RocksDB.applyOp s (psA.map (fun r => BatchOp.put A.cf r.1 r.2)))
        (psB.map (fun r => BatchOp.put B.cf r.1 r.2))).cfs = s.cfs := by
      rw [cfs_foldl_applyOp, cfs_foldl_applyOp]
    simp [DBMap.get, hqk, DBMap.cfHandle, hcfs, hcfB, hrg, hrtB p hp q.2 hqv]

/-- C2 witness: one pair staged for each of two column families of the same
engine instance, committed together and both visible afterwards. -/
theorem batch_write_commits_all_staged_ops_witness :
    ∃ b₁, DBBatch.insert_batch serdeNat serdeNat
        (DBMap.batch (⟨0, "cf1"⟩ : DBMap Nat Nat)) (⟨0, "cf1"⟩ : DBMap Nat Nat)
        [(1, 7)] ⟨["cf1", "cf2"], []⟩ = .ok b₁ ∧
    ∃ b₂, DBBatch.insert_batch serdeNat serdeNat b₁ (⟨0, "cf2"⟩ : DBMap Nat Nat)
        [(2, 8)] ⟨["cf1", "cf2"], []⟩ = .ok b₂ ∧
    ∃ s', b₂.write ⟨["cf1", "cf2"], []⟩ = .ok s' ∧
      (∀ p ∈ [((1 : Nat), (7 : Nat))],
         DBMap.get serdeNat serdeNat (⟨0, "cf1"⟩ : DBMap Nat Nat) s' p.1 = .ok (some p.2)) ∧
      (∀ p ∈ [((2 : Nat), (8 : Nat))],
         DBMap.get serdeNat serdeNat (⟨0, "cf2"⟩ : DBMap Nat Nat) s' p.1 = .ok (some p.2)) :=
  batch_write_commits_all_staged_ops serdeNat serdeNat serdeNat serdeNat
    ⟨0, "cf1"⟩ ⟨0, "cf2"⟩ ⟨["cf1", "cf2"], []⟩ [(1, 7)] [(2, 8)]
    [([0, 0, 0, 1], [0, 0, 0, 7])] [([0, 0, 0, 2], [0, 0, 0, 8])]
    rfl (by decide) (by decide) (by decide) rfl rfl (by decide) (by decide)
    (by
      intro p hp bs hbs
      simp only [List.mem_singleton] at hp
      subst hp
      simp only [serdeNat, Except.ok.injEq] at hbs
      subst hbs
      rfl)
    (by
      intro p hp bs hbs
      simp only [List.mem_singleton] at hp
      subst hp
      simp only [serdeNat, Except.ok.injEq] at hbs
      subst hbs
      rfl)

/-! No-panic lemmas for the individual operations, under a registered column
family. -/

theorem get_no_panic (kS : Serde K) (vS : Serde V) (db : DBMap K V) (s : RocksDB) (k : K)
    (hcf : db.cf ∈ s.cfs) : (DBMap.get kS vS db s k).isPanicked = false := by
  have hch : db.cfHandle s = .ok db.cf := by simp [DBMap.cfHandle, hcf]
  cases hk : kS.ser k with
  | error e => simp [DBMap.get, hk, PResult.isPanicked]
  | ok kb =>
    simp only [DBMap.get, hk, hch]
    cases hr : s.rawGet db.cf kb with
    | none => rfl
    | some data =>
      cases hd : vS.deser data with
      | error e => simp [hd, PResult.isPanicked]
      | ok v => simp [hd, PResult.isPanicked]

theorem contains_key_no_panic (kS : Serde K) (vS : Serde V) (db : DBMap K V) (s : RocksDB)
    (k : K) (hcf : db.cf ∈ s.cfs) : (DBMap.contains_key kS vS db s k).isPanicked = false := by
  have h := get_no_panic kS vS db s k hcf
  cases hg : DBMap.get kS vS db s k with
  | ok o => simp [DBMap.contains_key, hg, PResult.isPanicked]
  | err e => simp [DBMap.contains_key, hg, PResult.isPanicked]
  | panicked m =>
    rw [hg] at h
    simp [PResult.isPanicked] at h

theorem insert_no_panic (kS : Serde K) (vS : Serde V) (db : DBMap K V) (s : RocksDB)
    (k : K) (v : V) (hcf : db.cf ∈ s.cfs) :
    (DBMap.insert kS vS db s k v).isPanicked = false := by
  have hch : db.cfHandle s = .ok db.cf := by simp [DBMap.cfHandle, hcf]
  cases hk : kS.ser k with
  | error e => simp [DBMap.insert, hk, PResult.isPanicked]
  | ok kb =>
    cases hv : vS.ser v with
    | error e => simp [DBMap.insert, hk, hv, PResult.isPanicked]
    | ok vb => simp [DBMap.insert, hk, hv, hch, PResult.isPanicked]

theorem remove_no_panic (kS : Serde K) (db : DBMap K V) (s : RocksDB) (k : K)
    (hcf : db.cf ∈ s.cfs) : (DBMap.remove kS db s k).isPanicked = false := by
  have hch : db.cfHandle s = .ok db.cf := by simp [DBMap.cfHandle, hcf]
  cases hk : kS.ser k with
  | error e => simp [DBMap.remove, hk, PResult.isPanicked]
  | ok kb => simp [DBMap.remove, hk, hch, PResult.isPanicked]

theorem clear_no_panic (db : DBMap K V) (s : RocksDB) :
    (DBMap.clear db s).isPanicked = false := by
  cases hd : s.dropCf db.cf with
  | ok s₁ =>
    simp only [DBMap.clear, hd]
    cases hc : s₁.createCf db.cf with
    | ok s₂ => simp [hc, PResult.isPanicked]
    | error e => simp [hc, PResult.isPanicked]
  | error e =>
    simp only [DBMap.clear, hd]
    cases hc : s.createCf db.cf with
    | ok s₂ => simp [hc, PResult.isPanicked]
    | error e' => simp [hc, PResult.isPanicked]

theorem multi_get_no_panic (kS : Serde K) (vS : Serde V) (db : DBMap K V) (s : RocksDB)
    (keysL : List K) (hcf : db.cf ∈ s.cfs) :
    (DBMap.multi_get kS vS db s keysL).isPanicked = false := by
  have hch : db.cfHandle s = .ok db.cf := by simp [DBMap.cfHandle, hcf]
  simp only [DBMap.multi_get, hch]
  cases hs : serKeys kS keysL with
  | error e => rfl
  | ok kbs =>
    cases hd : decodeResults vS (kbs.map (s.rawGet db.cf)) with
    | error e => simp [hd, PResult.isPanicked]
    | ok vals => simp [hd, PResult.isPanicked]

theorem stagePuts_no_panic (kS : Serde K) (vS : Serde V) (db : DBMap K V) (s : RocksDB)
    (hcf : db.cf ∈ s.cfs) :
    ∀ (pairs : List (K × V)) (acc : List BatchOp),
      (stagePuts kS vS db s pairs acc).isPanicked = false := by
  have hch : db.cfHandle s = .ok db.cf := by simp [DBMap.cfHandle, hcf]
  intro pairs
  induction pairs with
  | nil => intro acc; rfl
  | cons kv rest ih =>
    intro acc
    obtain ⟨k, v⟩ := kv
    simp only [stagePuts]
    cases hk : kS.ser k with
    | error e => rfl
    | ok kb =>
      cases hv : vS.ser v with
      | error e => rfl
      | ok vb =>
        rw [hch]
        exact ih _

theorem stageDels_no_panic (kS : Serde K) (db : DBMap K V) (s : RocksDB)
    (hcf : db.cf ∈ s.cfs) :
    ∀ (keysL : List K) (acc : List BatchOp),
      (stageDels kS db s keysL acc).isPanicked = false := by
  have hch : db.cfHandle s = .ok db.cf := by simp [DBMap.cfHandle, hcf]
  intro keysL
  induction keysL with
  | nil => intro acc; rfl
  | cons k rest ih =>
    intro acc
    simp only [stageDels]
    cases hk : kS.ser k with
    | error e => rfl
    | ok kb =>
      rw [hch]
      exact ih _

theorem insert_batch_no_panic (kS : Serde K) (vS : Serde V) (b : DBBatch) (db : DBMap K V)
    (pairs : List (K × V)) (s : RocksDB) (hcf : db.cf ∈ s.cfs) :
    (DBBatch.insert_batch kS vS b db pairs s).isPanicked = false := by
  by_cases hid : db.instanceId ≠ b.instanceId
  · simp [DBBatch.insert_batch, hid, PResult.isPanicked]
  · have h := stagePuts_no_panic kS vS db s hcf pairs b.ops
    simp only [DBBatch.insert_batch, if_neg hid]
    cases hst : stagePuts kS vS db s pairs b.ops with
    | ok ops => rfl
    | err e => rfl
    | panicked m =>
      rw [hst] at h
      simp [PResult.isPanicked] at h

theorem delete_batch_no_panic (kS : Serde K) (b : DBBatch) (db : DBMap K V)
    (keysL : List K) (s : RocksDB) (hcf : db.cf ∈ s.cfs) :
    (DBBatch.delete_batch kS b db keysL s).isPanicked = false := by
  by_cases hid : db.instanceId ≠ b.instanceId
  · simp [DBBatch.delete_batch, hid, PResult.isPanicked]
  · have h := stageDels_no_panic kS db s hcf keysL b.ops
    simp only [DBBatch.delete_batch, if_neg hid]
    cases hst : stageDels kS db s keysL b.ops with
    | ok ops => rfl
    | err e => rfl
    | panicked m =>
      rw [hst] at h
      simp [PResult.isPanicked] at h

theorem delete_range_no_panic (kS : Serde K) (b : DBBatch) (db : DBMap K V)
    (lo hi : K) (s : RocksDB) (hcf : db.cf ∈ s.cfs) :
    (DBBatch.delete_range kS b db lo hi s).isPanicked = false := by
  have hch : db.cfHandle s = .ok db.cf := by simp [DBMap.cfHandle, hcf]
  by_cases hid : db.instanceId ≠ b.instanceId
  · simp [DBBatch.delete_range, hid, PResult.isPanicked]
  · simp only [DBBatch.delete_range, if_neg hid]
    cases hlo : kS.ser lo with
    | error e => rfl
    | ok fb =>
      cases hhi : kS.ser hi with
      | error e => rfl
      | ok tb => simp [hch, PResult.isPanicked]

/-- C7 counterexample: in a state where the handle's column family is
missing from the engine instance (exactly the window clear() leaves between
dropping and recreating), get does not return an error: it panics through
the expect in DBMap::cf. -/
theorem get_panics_when_cf_missing :
    (DBMap.get serdeNat serdeNat (⟨0, "cf1"⟩ : DBMap Nat Nat) ⟨[], []⟩ 1).isPanicked = true := by
  rfl

/-- C7 (amended): every public operation of the layer returns a result, not
a panic, on every data error, provided the handle's column family is
registered in the engine state; when it is missing, the operations that
resolve the column family handle panic via expect instead. -/
theorem no_panic_when_cf_registered (kS : Serde K) (vS : Serde V) (db : DBMap K V)
    (s : RocksDB) (k : K) (v : V) (keysL : List K) (pairs : List (K × V)) (b : DBBatch)
    (lo hi : K) (hcf : db.cf ∈ s.cfs) :
    (DBMap.get kS vS db s k).isPanicked = false ∧
    (DBMap.contains_key kS vS db s k).isPanicked = false ∧
    (DBMap.insert kS vS db s k v).isPanicked = false ∧
    (DBMap.remove kS db s k).isPanicked = false ∧
    (DBMap.clear db s).isPanicked = false ∧
    (DBMap.multi_get kS vS db s keysL).isPanicked = false ∧
    (DBBatch.insert_batch kS vS b db pairs s).isPanicked = false ∧
    (DBBatch.delete_batch kS b db keysL s).isPanicked = false ∧
    (DBBatch.delete_range kS b db lo hi s).isPanicked = false ∧
    (DBMap.iter db s).isPanicked = false ∧
    (DBMap.keys db s).isPanicked = false ∧
    (DBMap.values db s).isPanicked = false :=
  ⟨get_no_panic kS vS db s k hcf,
   contains_key_no_panic kS vS db s k hcf,
   insert_no_panic kS vS db s k v hcf,
   remove_no_panic kS db s k hcf,
   clear_no_panic db s,
   multi_get_no_panic kS vS db s keysL hcf,
   insert_batch_no_panic kS vS b db pairs s hcf,
   delete_batch_no_panic kS b db keysL s hcf,
   delete_range_no_panic kS b db lo hi s hcf,
   by simp [DBMap.iter, DBMap.cfHandle, hcf, PResult.isPanicked],
   by simp [DBMap.keys, DBMap.cfHandle, hcf, PResult.isPanicked],
   by simp [DBMap.values, DBMap.cfHandle, hcf, PResult.isPanicked]⟩

/-- C7 witness: the amended no-panic property at a concrete map, state,
batch and inputs. -/
theorem no_panic_when_cf_registered_witness :
    (DBMap.get serdeNat serdeNat (⟨0, "cf1"⟩ : DBMap Nat Nat) ⟨["cf1"], []⟩ 1).isPanicked = false ∧
    (DBMap.contains_key serdeNat serdeNat (⟨0, "cf1"⟩ : DBMap Nat Nat) ⟨["cf1"], []⟩ 1).isPanicked = false ∧
    (DBMap.insert serdeNat serdeNat (⟨0, "cf1"⟩ : DBMap Nat Nat) ⟨["cf1"], []⟩ 1 2).isPanicked = false ∧
    (DBMap.remove serdeNat (⟨0, "cf1"⟩ : DBMap Nat Nat) ⟨["cf1"], []⟩ 1).isPanicked = false ∧
    (DBMap.clear (⟨0, "cf1"⟩ : DBMap Nat Nat) ⟨["cf1"], []⟩).isPanicked = false ∧
    (DBMap.multi_get serdeNat serdeNat (⟨0, "cf1"⟩ : DBMap Nat Nat) ⟨["cf1"], []⟩ [1, 2]).isPanicked = false ∧
    (DBBatch.insert_batch serdeNat serdeNat ⟨0, []⟩ (⟨0, "cf1"⟩ : DBMap Nat Nat) [(1, 2)] ⟨["cf1"], []⟩).isPanicked = false ∧
    (DBBatch.delete_batch serdeNat ⟨0, []⟩ (⟨0, "cf1"⟩ : DBMap Nat Nat) [1, 2] ⟨["cf1"], []⟩).isPanicked = false ∧
    (DBBatch.delete_range serdeNat ⟨0, []⟩ (⟨0, "cf1"⟩ : DBMap Nat Nat) 1 2 ⟨["cf1"], []⟩).isPanicked = false ∧
    (DBMap.iter (⟨0, "cf1"⟩ : DBMap Nat Nat) ⟨["cf1"], []⟩).isPanicked = false ∧
    (DBMap.keys (⟨0, "cf1"⟩ : DBMap Nat Nat) ⟨["cf1"], []⟩).isPanicked = false ∧
    (DBMap.values (⟨0, "cf1"⟩ : DBMap Nat Nat) ⟨["cf1"], []⟩).isPanicked = false :=
  no_panic_when_cf_registered serdeNat serdeNat ⟨0, "cf1"⟩ ⟨["cf1"], []⟩ 1 2 [1, 2] [(1, 2)]
    ⟨0, []⟩ 1 2 (by decide)

/-! Cursor lemmas. -/

theorem entriesOf_sorted (s : RocksDB) (cf : String) :
    List.Pairwise (fun e e' : Bytes × Bytes => lexLt e.1 e'.1 = true) (s.entriesOf cf) := by
  unfold RocksDB.entriesOf
  have hnd : ((s.data.filterMap (fun e => if e.1.1 = cf then some e.1.2 else none)).dedup).Nodup :=
    List.nodup_dedup _
  have hnds : (List.insertionSort byteLe
      ((s.data.filterMap (fun e => if e.1.1 = cf then some e.1.2 else none)).dedup)).Nodup :=
    ((List.perm_insertionSort byteLe _).nodup_iff).mpr hnd
  have hsort := List.sorted_insertionSort byteLe
    ((s.data.filterMap (fun e => if e.1.1 = cf then some e.1.2 else none)).dedup)
  have hstrict : List.Pairwise (fun a b : Bytes => lexLt a b = true)
      (List.insertionSort byteLe
        ((s.data.filterMap (fun e => if e.1.1 = cf then some e.1.2 else none)).dedup)) := by
    have hand := List.Pairwise.and hsort hnds
    exact hand.imp (fun h => byteLe_ne_lt h.1 h.2)
  refine List.pairwise_filterMap.mpr (hstrict.imp ?_)
  intro a b hab x hx y hy
  obtain ⟨va, _, hxa⟩ := Option.map_eq_some'.mp hx
  obtain ⟨vb, _, hyb⟩ := Option.map_eq_some'.mp hy
  rw [← hxa, ← hyb]
  exact hab

theorem entriesOf_empty (s : RocksDB) (cf : String) (h : ∀ e ∈ s.data, e.1.1 ≠ cf) :
    s.entriesOf cf = [] := by
  unfold RocksDB.entriesOf
  have hks : s.data.filterMap (fun e => if e.1.1 = cf then some e.1.2 else none) = [] := by
    apply List.filterMap_eq_nil_iff.mpr
    intro e he
    simp [h e he]
  rw [hks]
  rfl

theorem iter_nextN_drain (kS : Serde K) (vS : Serde V) :
    ∀ l : List (Bytes × Bytes),
      Iter.nextN kS vS l.length ⟨l⟩ =
        (l.map (fun e => some (decodeEntry kS vS e)), (⟨[]⟩ : Iter K V)) := by
  intro l
  induction l with
  | nil => rfl
  | cons e rest ih =>
    simp only [List.length_cons, Iter.nextN, Iter.next]
    rw [ih]
    simp

theorem iter_nextN_exhausted (kS : Serde K) (vS : Serde V) :
    ∀ m : Nat, Iter.nextN kS vS m (⟨[]⟩ : Iter K V) = (List.replicate m none, ⟨[]⟩) := by
  intro m
  induction m with
  | zero => rfl
  | succ n ih =>
    simp only [Iter.nextN, Iter.next]
    rw [ih]
    simp [List.replicate]

theorem keys_nextN_drain (kS : Serde K) :
    ∀ l : List (Bytes × Bytes),
      Keys.nextN kS l.length ⟨l⟩ =
        (l.map (fun e => some (kS.deser e.1)), (⟨[]⟩ : Keys K)) := by
  intro l
  induction l with
  | nil => rfl
  | cons e rest ih =>
    simp only [List.length_cons, Keys.nextN, Keys.next]
    rw [ih]
    simp

theorem keys_nextN_exhausted (kS : Serde K) :
    ∀ m : Nat, Keys.nextN kS m (⟨[]⟩ : Keys K) = (List.replicate m none, ⟨[]⟩) := by
  intro m
  induction m with
  | zero => rfl
  | succ n ih =>
    simp only [Keys.nextN, Keys.next]
    rw [ih]
    simp [List.replicate]

theorem values_nextN_drain (vS : Serde V) :
    ∀ l : List (Bytes × Bytes),
      Values.nextN vS l.length ⟨l⟩ =
        (l.map (fun e => some (vS.deser e.2)), (⟨[]⟩ : Values V)) := by
  intro l
  induction l with
  | nil => rfl
  | cons e rest ih =>
    simp only [List.length_cons, Values.nextN, Values.next]
    rw [ih]
    simp

theorem values_nextN_exhausted (vS : Serde V) :
    ∀ m : Nat, Values.nextN vS m (⟨[]⟩ : Values V) = (List.replicate m none, ⟨[]⟩) := by
  intro m
  induction m with
  | zero => rfl
  | succ n ih =>
    simp only [Values.nextN, Values.next]
    rw [ih]
    simp [List.replicate]

/-- C8: cursors from iter(), keys() and values() walk the column family's
entries in strictly ascending byte order of the encoded keys: a cursor over
an empty column family immediately reports exhaustion; a cursor over the
stored entries yields exactly one item per stored key and then reports
exhaustion; the exhausted cursor is a fixed point of next, so a cursor
cannot be restarted and a new one is needed to rescan. -/
theorem cursor_yields_sorted_then_exhausts (kS : Serde K) (vS : Serde V) (db : DBMap K V)
    (s : RocksDB) (hcf : db.cf ∈ s.cfs) :
    DBMap.iter db s = .ok ⟨s.entriesOf db.cf⟩ ∧
    DBMap.keys db s = .ok (⟨s.entriesOf db.cf⟩ : Keys K) ∧
    DBMap.values db s = .ok (⟨s.entriesOf db.cf⟩ : Values V) ∧
    List.Pairwise (fun e e' : Bytes × Bytes => lexLt e.1 e'.1 = true) (s.entriesOf db.cf) ∧
    ((∀ e ∈ s.data, e.1.1 ≠ db.cf) → s.entriesOf db.cf = []) ∧
    Iter.next kS vS (⟨[]⟩ : Iter K V) = (none, ⟨[]⟩) ∧
    Iter.nextN kS vS (s.entriesOf db.cf).length ⟨s.entriesOf db.cf⟩ =
      ((s.entriesOf db.cf).map (fun e => some (decodeEntry kS vS e)), ⟨[]⟩) ∧
    Keys.nextN kS (s.entriesOf db.cf).length ⟨s.entriesOf db.cf⟩ =
      ((s.entriesOf db.cf).map (fun e => some (kS.deser e.1)), ⟨[]⟩) ∧
    Values.nextN vS (s.entriesOf db.cf).length ⟨s.entriesOf db.cf⟩ =
      ((s.entriesOf db.cf).map (fun e => some (vS.deser e.2)), ⟨[]⟩) ∧
    (∀ m, Iter.nextN kS vS m (⟨[]⟩ : Iter K V) = (List.replicate m none, ⟨[]⟩)) ∧
    (∀ m, Keys.nextN kS m (⟨[]⟩ : Keys K) = (List.replicate m none, ⟨[]⟩)) ∧
    (∀ m, Values.nextN vS m (⟨[]⟩ : Values V) = (List.replicate m none, ⟨[]⟩)) :=
  ⟨by simp [DBMap.iter, DBMap.cfHandle, hcf],
   by simp [DBMap.keys, DBMap.cfHandle, hcf],
   by simp [DBMap.values, DBMap.cfHandle, hcf],
   entriesOf_sorted s db.cf,
   entriesOf_empty s db.cf,
   rfl,
   iter_nextN_drain kS vS (s.entriesOf db.cf),
   keys_nextN_drain kS (s.entriesOf db.cf),
   values_nextN_drain vS (s.entriesOf db.cf),
   iter_nextN_exhausted kS vS,
   keys_nextN_exhausted kS,
   values_nextN_exhausted vS⟩

/-- C8 witness: a concrete column family holding the keys 2 and 1 (inserted
in that order): the cursor yields both entries in ascending encoded order,
then exhaustion forever. -/
theorem cursor_yields_sorted_then_exhausts_witness :
    DBMap.iter (⟨0, "cf1"⟩ : DBMap Nat Nat) cursorWitnessState =
      .ok ⟨cursorWitnessState.entriesOf "cf1"⟩ ∧
    DBMap.keys (⟨0, "cf1"⟩ : DBMap Nat Nat) cursorWitnessState =
      .ok (⟨cursorWitnessState.entriesOf "cf1"⟩ : Keys Nat) ∧
    DBMap.values (⟨0, "cf1"⟩ : DBMap Nat Nat) cursorWitnessState =
      .ok (⟨cursorWitnessState.entriesOf "cf1"⟩ : Values Nat) ∧
    List.Pairwise (fun e e' : Bytes × Bytes => lexLt e.1 e'.1 = true)
      (cursorWitnessState.entriesOf "cf1") ∧
    ((∀ e ∈ cursorWitnessState.data, e.1.1 ≠ "cf1") →
       cursorWitnessState.entriesOf "cf1" = []) ∧
    Iter.next serdeNat serdeNat (⟨[]⟩ : Iter Nat Nat) = (none, ⟨[]⟩) ∧
    Iter.nextN serdeNat serdeNat (cursorWitnessState.entriesOf "cf1").length
        ⟨cursorWitnessState.entriesOf "cf1"⟩ =
      ((cursorWitnessState.entriesOf "cf1").map
        (fun e => some (decodeEntry serdeNat serdeNat e)), ⟨[]⟩) ∧
    Keys.nextN serdeNat (cursorWitnessState.entriesOf "cf1").length
        ⟨cursorWitnessState.entriesOf "cf1"⟩ =
      ((cursorWitnessState.entriesOf "cf1").map (fun e => some (serdeNat.deser e.1)), ⟨[]⟩) ∧
    Values.nextN serdeNat (cursorWitnessState.entriesOf "cf1").length
        ⟨cursorWitnessState.entriesOf "cf1"⟩ =
      ((cursorWitnessState.entriesOf "cf1").map (fun e => some (serdeNat.deser e.2)), ⟨[]⟩) ∧
    (∀ m, Iter.nextN serdeNat serdeNat m (⟨[]⟩ : Iter Nat Nat) =
       (List.replicate m none, ⟨[]⟩)) ∧
    (∀ m, Keys.nextN serdeNat m (⟨[]⟩ : Keys Nat) = (List.replicate m none, ⟨[]⟩)) ∧
    (∀ m, Values.nextN serdeNat m (⟨[]⟩ : Values Nat) = (List.replicate m none, ⟨[]⟩)) :=
  cursor_yields_sorted_then_exhausts serdeNat serdeNat ⟨0, "cf1"⟩ cursorWitnessState
    (by decide)

/-- C4 witness: three keys of which only the middle one is stored: the
result preserves length and positions; and a state whose stored bytes are
undecodable makes the whole call fail. -/
theorem multi_get_positional_witness :
    (∀ res, DBMap.multi_get serdeNat serdeNat (⟨0, "cf1"⟩ : DBMap Nat Nat)
        ⟨["cf1"], [(("cf1", [0, 0, 0, 2]), [0, 0, 0, 7])]⟩ [1, 2, 3] = .ok res →
       res.length = 3 ∧
       ∀ p ∈ List.zip [[0, 0, 0, 1], [0, 0, 0, 2], [0, 0, 0, 3]] res,
         (RocksDB.rawGet ⟨["cf1"], [(("cf1", [0, 0, 0, 2]), [0, 0, 0, 7])]⟩ "cf1" p.1 = none →
            p.2 = none) ∧
         (∀ bs, RocksDB.rawGet ⟨["cf1"], [(("cf1", [0, 0, 0, 2]), [0, 0, 0, 7])]⟩ "cf1" p.1 =
              some bs → ∃ v, serdeNat.deser bs = .ok v ∧ p.2 = some v)) ∧
    ((∃ kb ∈ [[0, 0, 0, 1], [0, 0, 0, 2], [0, 0, 0, 3]], ∃ bs,
        RocksDB.rawGet ⟨["cf1"], [(("cf1", [0, 0, 0, 2]), [0, 0, 0, 7])]⟩ "cf1" kb = some bs ∧
        ∀ v, serdeNat.deser bs ≠ .ok v) →
       ∀ res, DBMap.multi_get serdeNat serdeNat (⟨0, "cf1"⟩ : DBMap Nat Nat)
          ⟨["cf1"], [(("cf1", [0, 0, 0, 2]), [0, 0, 0, 7])]⟩ [1, 2, 3] ≠ .ok res) :=
  multi_get_positional serdeNat serdeNat ⟨0, "cf1"⟩
    ⟨["cf1"], [(("cf1", [0, 0, 0, 2]), [0, 0, 0, 7])]⟩ [1, 2, 3]
    [[0, 0, 0, 1], [0, 0, 0, 2], [0, 0, 0, 3]] (by decide) rfl

end TypedStore
